import Mathlib

set_option maxRecDepth 100000

/-!
Shallow embedding of `obsidian_quotes.py` (class `ObsidianQuoteDisplay`):
the markdown paragraph extractor, the book-title extractor, the markup-only
filter, the markdown cleaner, the Obsidian URI builder and the random-quote
selector, together with theorems settling the specification claims.

Strings are modelled as Lean `String` (lists of characters); Python's
default-whitespace `str.strip` and the ASCII behaviour of `\s`, `\w`,
`isalpha` are modelled over the ASCII range, which covers all inputs the
claims are about.  Each `re.sub` call of the source is modelled by a
dedicated scanner that reproduces the leftmost, non-greedy (`.*?` never
crossing a newline) semantics of the Python `re` module.
-/

namespace ObsidianQuotes

/-- Python default whitespace for `str.strip` and `\s` (ASCII range). -/
def pyWhitespace (c : Char) : Bool :=
  c = ' ' || c = '\t' || c = '\n' || c = '\r' || c = Char.ofNat 11 || c = Char.ofNat 12

/-- Python `\w` word character (ASCII range). -/
def isWordChar (c : Char) : Bool := c.isAlphanum || c = '_'

/-- Python `str.strip()` on a list of characters. -/
def stripL (l : List Char) : List Char :=
  ((l.dropWhile pyWhitespace).reverse.dropWhile pyWhitespace).reverse

/-- Auxiliary for `content.split('\n')`. -/
def splitLinesAux : List Char → List Char → List (List Char)
  | [], cur => [cur.reverse]
  | c :: cs, cur =>
    if c = '\n' then cur.reverse :: splitLinesAux cs [] else splitLinesAux cs (c :: cur)

/-- Python `content.split('\n')`. -/
def splitLines (l : List Char) : List (List Char) := splitLinesAux l []

/-- Gap length of the shortest `.*?` match (no newline) before `suf`. -/
def findSuffix (suf : List Char) : List Char → Option Nat
  | [] => if suf.isPrefixOf ([] : List Char) then some 0 else none
  | c :: rest =>
    if suf.isPrefixOf (c :: rest) then some 0
    else if c = '\n' then none
    else (findSuffix suf rest).map Nat.succ

/-- Fuelled scanner for `re.sub(pre + '.*?' + suf, '', s)`. -/
def subRemoveFuel (pre suf : List Char) : Nat → List Char → List Char
  | 0, s => s
  | _ + 1, [] => []
  | fuel + 1, c :: rest =>
    if pre.isPrefixOf (c :: rest) then
      match findSuffix suf ((c :: rest).drop pre.length) with
      | some g => subRemoveFuel pre suf fuel (((c :: rest).drop pre.length).drop (g + suf.length))
      | none => c :: subRemoveFuel pre suf fuel rest
    else c :: subRemoveFuel pre suf fuel rest

/-- `re.sub(pre + '.*?' + suf, '', s)`: delete each delimited construct. -/
def subRemove (pre suf s : List Char) : List Char := subRemoveFuel pre suf s.length s

/-- Fuelled scanner for `re.sub(pre + '(.*?)' + suf, r'\1', s)`. -/
def subKeepFuel (pre suf : List Char) : Nat → List Char → List Char
  | 0, s => s
  | _ + 1, [] => []
  | fuel + 1, c :: rest =>
    if pre.isPrefixOf (c :: rest) then
      match findSuffix suf ((c :: rest).drop pre.length) with
      | some g =>
          ((c :: rest).drop pre.length).take g ++
            subKeepFuel pre suf fuel (((c :: rest).drop pre.length).drop (g + suf.length))
      | none => c :: subKeepFuel pre suf fuel rest
    else c :: subKeepFuel pre suf fuel rest

/-- `re.sub(pre + '(.*?)' + suf, r'\1', s)`: unwrap each delimited construct. -/
def subKeep (pre suf s : List Char) : List Char := subKeepFuel pre suf s.length s

/-- Backtracking match of `(.*?)\]\(.*?\)` after a `[`: returns the first
group and the remainder after the closing parenthesis. -/
def matchMdLink : List Char → Option (List Char × List Char)
  | [] => none
  | c :: rest =>
    match
      if (']' :: '(' :: []).isPrefixOf (c :: rest) then
        findSuffix [')'] ((c :: rest).drop 2)
      else none
    with
    | some g => some ([], (((c :: rest).drop 2).drop (g + 1)))
    | none =>
      if c = '\n' then none
      else (matchMdLink rest).map (fun pr => (c :: pr.1, pr.2))

/-- Fuelled scanner for `re.sub(r'\[.*?\]\(.*?\)', '', s)`. -/
def subLinkRemoveFuel : Nat → List Char → List Char
  | 0, s => s
  | _ + 1, [] => []
  | fuel + 1, c :: rest =>
    if c = '[' then
      match matchMdLink rest with
      | some pr => subLinkRemoveFuel fuel pr.2
      | none => c :: subLinkRemoveFuel fuel rest
    else c :: subLinkRemoveFuel fuel rest

/-- `re.sub(r'\[.*?\]\(.*?\)', '', s)`: delete markdown links. -/
def subLinkRemove (s : List Char) : List Char := subLinkRemoveFuel s.length s

/-- Fuelled scanner for `re.sub(r'\[(.*?)\]\(.*?\)', r'\1', s)`. -/
def subLinkKeepFuel : Nat → List Char → List Char
  | 0, s => s
  | _ + 1, [] => []
  | fuel + 1, c :: rest =>
    if c = '[' then
      match matchMdLink rest with
      | some pr => pr.1 ++ subLinkKeepFuel fuel pr.2
      | none => c :: subLinkKeepFuel fuel rest
    else c :: subLinkKeepFuel fuel rest

/-- `re.sub(r'\[(.*?)\]\(.*?\)', r'\1', s)`: keep link text, drop target. -/
def subLinkKeep (s : List Char) : List Char := subLinkKeepFuel s.length s

/-- Fuelled scanner for `re.sub(r'!rw-\w+', '', s)`. -/
def subRwFuel : Nat → List Char → List Char
  | 0, s => s
  | _ + 1, [] => []
  | fuel + 1, c :: rest =>
    if ('!' :: 'r' :: 'w' :: '-' :: []).isPrefixOf (c :: rest) &&
        !(((c :: rest).drop 4).takeWhile isWordChar).isEmpty then
      subRwFuel fuel (((c :: rest).drop 4).dropWhile isWordChar)
    else c :: subRwFuel fuel rest

/-- `re.sub(r'!rw-\w+', '', s)`: delete Readwise markers. -/
def subRw (s : List Char) : List Char := subRwFuel s.length s

/-- Fuelled scanner for `re.sub(r'#{1,6}\s*', '', s)` (unanchored). -/
def subHeadersFuel : Nat → List Char → List Char
  | 0, s => s
  | _ + 1, [] => []
  | fuel + 1, c :: rest =>
    if c = '#' then
      subHeadersFuel fuel
        (((c :: rest).drop (min (((c :: rest).takeWhile (fun d => d = '#')).length) 6)).dropWhile
          pyWhitespace)
    else c :: subHeadersFuel fuel rest

/-- `re.sub(r'#{1,6}\s*', '', s)`: delete heading markers anywhere. -/
def subHeaders (s : List Char) : List Char := subHeadersFuel s.length s

/-- `re.sub(r'^>\s*', '', s)`: delete a leading blockquote marker. -/
def subLeadBlockquote : List Char → List Char
  | '>' :: rest => rest.dropWhile pyWhitespace
  | s => s

/-- `re.sub(r'^[-*+]\s*', '', s)`: delete a leading list bullet. -/
def subLeadBullet : List Char → List Char
  | [] => []
  | c :: rest =>
    if c = '-' || c = '*' || c = '+' then rest.dropWhile pyWhitespace else c :: rest

/-- `re.sub(r'^\d+\.\s*', '', s)`: delete a leading numbered-list prefix. -/
def subLeadNum (s : List Char) : List Char :=
  if !(s.takeWhile Char.isDigit).isEmpty &&
      ('.' :: []).isPrefixOf (s.dropWhile Char.isDigit) then
    ((s.dropWhile Char.isDigit).drop 1).dropWhile pyWhitespace
  else s

/-- `re.sub(r'^---+$', '', s)`: blank out a horizontal-rule-only line. -/
def subHRule (s : List Char) : List Char :=
  if 3 ≤ s.length && s.all (fun c => c = '-') then [] else s

/-- `is_markup_only`: strip each recognised markup construct in the order of
the source, then test whether fewer than 20 characters or no alphabetic
character remain. -/
def is_markup_onlyL (l : List Char) : Bool :=
  let c1 := subRemove ('!' :: '[' :: '[' :: []) (']' :: ']' :: []) l
  let c2 := subRw c1
  let c3 := subRemove ('[' :: '[' :: []) (']' :: ']' :: []) c2
  let c4 := subLinkRemove c3
  let c5 := subRemove ('`' :: []) ('`' :: []) c4
  let c6 := subRemove ('*' :: '*' :: []) ('*' :: '*' :: []) c5
  let c7 := subRemove ('*' :: []) ('*' :: []) c6
  let c8 := subRemove ('=' :: '=' :: []) ('=' :: '=' :: []) c7
  let c9 := subRemove ('%' :: '%' :: []) ('%' :: '%' :: []) c8
  let c10 := subRemove ('<' :: '!' :: '-' :: '-' :: []) ('-' :: '-' :: '>' :: []) c9
  let c11 := subRemove ('<' :: []) ('>' :: []) c10
  let c12 := subHeaders c11
  let c13 := subLeadBlockquote c12
  let c14 := subLeadBullet c13
  let c15 := subLeadNum c14
  let c16 := subHRule c15
  let cleaned := stripL c16
  decide (cleaned.length < 20) || !(cleaned.any Char.isAlpha)

/-- The `skip_conditions` list of `extract_paragraphs`, on a stripped line. -/
def skipLineL (t : List Char) : Bool :=
  ('#' :: []).isPrefixOf t ||
  t.isEmpty ||
  ('`' :: '`' :: '`' :: []).isPrefixOf t ||
  ('>' :: []).isPrefixOf t ||
  ('-' :: ' ' :: []).isPrefixOf t ||
  ('*' :: ' ' :: []).isPrefixOf t ||
  ('1' :: '.' :: ' ' :: []).isPrefixOf t ||
  ('!' :: '[' :: '[' :: []).isPrefixOf t ||
  ('!' :: 'r' :: 'w' :: '-' :: []).isPrefixOf t ||
  ('!' :: '[' :: []).isPrefixOf t ||
  decide (t = ('-' :: '-' :: '-' :: [])) ||
  ('=' :: '=' :: []).isPrefixOf t ||
  ('%' :: '%' :: []).isPrefixOf t ||
  ('<' :: '!' :: '-' :: '-' :: []).isPrefixOf t ||
  ('<' :: []).isPrefixOf t ||
  (('[' :: '[' :: []).isPrefixOf t && (']' :: ']' :: []).isSuffixOf t &&
    decide (t.length < 50))

/-- `' '.join` on buffered lines. -/
def joinSpace : List (List Char) → List Char
  | [] => []
  | [x] => x
  | x :: xs => x ++ ' ' :: joinSpace xs

/-- Finalize the paragraph buffer: join, strip, keep only if longer than 100. -/
def finalizeL (buf : List (List Char)) : List (List Char) :=
  if buf.isEmpty then []
  else if 100 < (stripL (joinSpace buf)).length then [stripL (joinSpace buf)] else []

/-- The per-line loop of `extract_paragraphs` (frontmatter flag, buffer). -/
def extractLoop : List (List Char) → Bool → List (List Char) → List (List Char)
  | [], _, buf => finalizeL buf
  | l :: ls, true, buf =>
    if stripL l = ('-' :: '-' :: '-' :: []) then extractLoop ls false buf
    else extractLoop ls true buf
  | l :: ls, false, buf =>
    if skipLineL (stripL l) then finalizeL buf ++ extractLoop ls false []
    else if !(stripL l).isEmpty && !is_markup_onlyL (stripL l) then
      extractLoop ls false (buf ++ [stripL l])
    else extractLoop ls false buf

/-- `extract_paragraphs` on a pre-split list of lines. -/
def extract_paragraphsLines (lines : List (List Char)) : List (List Char) :=
  match lines with
  | [] => []
  | first :: rest =>
    if stripL first = ('-' :: '-' :: '-' :: []) then extractLoop rest true []
    else extractLoop (first :: rest) false []

/-- `extract_paragraphs`: split into lines, handle frontmatter, accumulate
prose lines, finalize on skippable lines and at end of input. -/
def extract_paragraphs (content : String) : List String :=
  (extract_paragraphsLines (splitLines content.data)).map String.mk

/-- Variant of `finalizeL` without the 100-character gate: every finalized
paragraph is kept.  Used to state where in the pipeline the gate acts. -/
def finalizeRawL (buf : List (List Char)) : List (List Char) :=
  if buf.isEmpty then [] else [stripL (joinSpace buf)]

/-- Variant of `extractLoop` collecting every finalized paragraph. -/
def extractLoopRaw : List (List Char) → Bool → List (List Char) → List (List Char)
  | [], _, buf => finalizeRawL buf
  | l :: ls, true, buf =>
    if stripL l = ('-' :: '-' :: '-' :: []) then extractLoopRaw ls false buf
    else extractLoopRaw ls true buf
  | l :: ls, false, buf =>
    if skipLineL (stripL l) then finalizeRawL buf ++ extractLoopRaw ls false []
    else if !(stripL l).isEmpty && !is_markup_onlyL (stripL l) then
      extractLoopRaw ls false (buf ++ [stripL l])
    else extractLoopRaw ls false buf

/-- All finalized (joined, stripped) paragraphs, before the length gate. -/
def extract_paragraphs_raw (content : String) : List String :=
  (match splitLines content.data with
    | [] => []
    | first :: rest =>
      if stripL first = ('-' :: '-' :: '-' :: []) then extractLoopRaw rest true []
      else extractLoopRaw (first :: rest) false []).map String.mk

/-- `extract_book_title` on a pre-split list of lines. -/
def extract_book_titleLines : List (List Char) → String
  | [] => "Unknown Book"
  | l :: ls =>
    if ('#' :: ' ' :: []).isPrefixOf (stripL l) then String.mk (stripL ((stripL l).drop 2))
    else extract_book_titleLines ls

/-- `extract_book_title`: first line whose stripped form starts with `# `,
with the prefix removed and the rest stripped; else `"Unknown Book"`. -/
def extract_book_title (content : String) : String :=
  extract_book_titleLines (splitLines content.data)

/-- `is_markup_only` on a `String`. -/
def is_markup_only (line : String) : Bool := is_markup_onlyL line.data

/-- `clean_markdown`: the `re.sub(..., r'\1', text)` pipeline of the source,
in order: bold, italic, bold-alternative, italic-alternative, inline code,
wiki links, markdown links. -/
def clean_markdown (text : String) : String :=
  String.mk
    (subLinkKeep
      (subKeep ('[' :: '[' :: []) (']' :: ']' :: [])
        (subKeep ('`' :: []) ('`' :: [])
          (subKeep ('_' :: []) ('_' :: [])
            (subKeep ('_' :: '_' :: []) ('_' :: '_' :: [])
              (subKeep ('*' :: []) ('*' :: [])
                (subKeep ('*' :: '*' :: []) ('*' :: '*' :: []) text.data)))))))

/-- `urllib.parse.quote`'s always-safe characters: ASCII letters, digits,
`_`, `.`, `-`, `~`. -/
def alwaysSafe (c : Char) : Bool :=
  c.isAlpha || c.isDigit || c = '_' || c = '.' || c = '-' || c = '~'

/-- Upper-case hexadecimal digit. -/
def hexDigit (n : Nat) : Char :=
  if n < 10 then Char.ofNat (48 + n) else Char.ofNat (55 + n)

/-- `%XX` percent-encoding of one byte. -/
def percentByte (b : Nat) : List Char := '%' :: hexDigit (b / 16) :: hexDigit (b % 16) :: []

/-- UTF-8 bytes of a character, as naturals. -/
def utf8Bytes (c : Char) : List Nat :=
  let n := c.toNat
  if n < 128 then [n]
  else if n < 2048 then [192 + n / 64, 128 + n % 64]
  else if n < 65536 then [224 + n / 4096, 128 + n / 64 % 64, 128 + n % 64]
  else [240 + n / 262144, 128 + n / 4096 % 64, 128 + n / 64 % 64, 128 + n % 64]

/-- One character under `urllib.parse.quote` with safe set `safe`. -/
def quoteChar (safe : Char → Bool) (c : Char) : List Char :=
  if safe c then [c] else (utf8Bytes c).flatMap percentByte

/-- `urllib.parse.quote(s)` with its default `safe='/'`: `/` stays literal. -/
def pyQuote (s : String) : String :=
  String.mk (s.data.flatMap (quoteChar (fun c => alwaysSafe c || c = '/')))

/-- Modelled from the spec: "standard URI component encoding" — every
character outside the unreserved set (including `/`) percent-encoded; the
safe set is only `urllib.parse.quote`'s always-safe characters. -/
def quoteComponent (s : String) : String :=
  String.mk (s.data.flatMap (quoteChar alwaysSafe))

/-- `get_obsidian_uri`: the scheme prefix followed by the quoted absolute
path (the absolute path itself is the function's input in this model). -/
def get_obsidian_uri (absolute_path : String) : String :=
  "obsidian://open?path=" ++ pyQuote absolute_path

/-- One candidate markdown file: its name, absolute path, and the outcome of
reading it (`none` models a read or decode error). -/
structure MDFile where
  name : String
  path : String
  read : Option String

/-- The three outcomes of `get_random_quote`: the "no markdown files found"
string, the "no suitable content" string, or the quote dictionary. -/
inductive QuoteResult where
  | noFiles
  | noSuitable
  | success (quote book file link : String)
deriving DecidableEq

/-- Pick an element by index modulo length (model of `random.choice`). -/
def listPick (l : List MDFile) (i : Nat) : MDFile :=
  l.getD (i % l.length) (MDFile.mk "" "" none)

/-- The attempt loop of `get_random_quote`: one `(file, paragraph)` random
pick per remaining attempt; a read error or an empty paragraph list consumes
the attempt; exhausted attempts yield the "no suitable content" outcome. -/
def quoteLoop (files : List MDFile) : List (Nat × Nat) → QuoteResult
  | [] => .noSuitable
  | (fi, pi) :: picks =>
    match (listPick files fi).read with
    | none => quoteLoop files picks
    | some content =>
      if (extract_paragraphs content).isEmpty then quoteLoop files picks
      else
        .success
          (clean_markdown ((extract_paragraphs content).getD
            (pi % (extract_paragraphs content).length) ""))
          (extract_book_title content)
          (listPick files fi).name
          (get_obsidian_uri (listPick files fi).path)

/-- `get_random_quote`, with the random choices passed as an oracle list
(length 10 in the source's `while attempts < 10` loop). -/
def get_random_quote (files : List MDFile) (picks : List (Nat × Nat)) : QuoteResult :=
  if files.isEmpty then .noFiles else quoteLoop files picks

/-- The surrounding class: its only state is the books directory path. -/
structure ObsidianQuoteDisplay where
  books_directory : String

/-- Method `extract_paragraphs` of the class (reads no instance state). -/
def ObsidianQuoteDisplay.extract_paragraphs (_ : ObsidianQuoteDisplay)
    (content : String) : List String :=
  ObsidianQuotes.extract_paragraphs content

/-- Method `extract_book_title` of the class (reads no instance state). -/
def ObsidianQuoteDisplay.extract_book_title (_ : ObsidianQuoteDisplay)
    (content : String) : String :=
  ObsidianQuotes.extract_book_title content

/-- Method `is_markup_only` of the class (reads no instance state). -/
def ObsidianQuoteDisplay.is_markup_only (_ : ObsidianQuoteDisplay)
    (line : String) : Bool :=
  ObsidianQuotes.is_markup_only line

/-- Method `clean_markdown` of the class (reads no instance state). -/
def ObsidianQuoteDisplay.clean_markdown (_ : ObsidianQuoteDisplay)
    (text : String) : String :=
  ObsidianQuotes.clean_markdown text

/-! Concrete documents used by the claims. -/

/-- 100 identical prose characters. -/
def prose100 : String := String.mk (List.replicate 100 'a')

/-- 101 identical prose characters. -/
def prose101 : String := String.mk (List.replicate 101 'a')

/-- A 70-character prose line. -/
def proseLine1 : String :=
  "The quick brown fox jumps over the lazy dog near the quiet river bank"

/-- A 66-character prose line. -/
def proseLine2 : String :=
  "while evening light settles softly across the distant wooded hills"

/-- A standalone wiki-link line of 52 characters: too long for the
standalone-wiki-link skip condition, yet markup-only. -/
def longWikiLine : String :=
  "[[aaaaaaaaaaaaaaaaaaaaaaaaaaaaaaaaaaaaaaaaaaaaaaaa]]"

/-- A candidate file whose read fails. -/
def badFile : MDFile := MDFile.mk "a.md" "/v/a.md" none

/-- A candidate file whose content holds one long paragraph. -/
def goodFile : MDFile := MDFile.mk "b.md" "/v/b.md" (some prose101)

/-! Gate-as-filter lemmas. -/

theorem finalizeL_eq_filter (buf : List (List Char)) :
    finalizeL buf = (finalizeRawL buf).filter (fun p => decide (100 < p.length)) := by
  unfold finalizeL finalizeRawL
  by_cases h : buf.isEmpty
  · simp [h]
  · simp only [h, if_false, Bool.false_eq_true]
    split <;> simp_all

theorem extractLoop_eq_filter (ls : List (List Char)) :
    ∀ fm buf, extractLoop ls fm buf =
      (extractLoopRaw ls fm buf).filter (fun p => decide (100 < p.length)) := by
  induction ls with
  | nil => intro fm buf; simpa [extractLoop, extractLoopRaw] using finalizeL_eq_filter buf
  | cons l ls ih =>
    intro fm buf
    cases fm with
    | true =>
      by_cases h : stripL l = ('-' :: '-' :: '-' :: []) <;>
        simp [extractLoop, extractLoopRaw, h, ih]
    | false =>
      by_cases h : skipLineL (stripL l) = true
      · simp [extractLoop, extractLoopRaw, h, ih, finalizeL_eq_filter, List.filter_append]
      · by_cases h2 : (!(stripL l).isEmpty && !is_markup_onlyL (stripL l)) = true <;>
          simp [extractLoop, extractLoopRaw, h, h2, ih]

theorem length_mk (d : List Char) : (String.mk d).length = d.length := rfl

theorem map_mk_filter (L : List (List Char)) :
    (L.map String.mk).filter (fun p => decide (100 < p.length)) =
      (L.filter (fun d => decide (100 < d.length))).map String.mk := by
  induction L with
  | nil => rfl
  | cons d L ih =>
    by_cases h : 100 < d.length <;> simp [h, ih, length_mk]

/-- C1: for every document, `extract_paragraphs` returns exactly the joined,
trimmed paragraphs whose length (measured before any markdown cleanup)
strictly exceeds 100 characters; a 100-character paragraph is excluded and a
101-character one is included. -/
theorem claim_C1 :
    (∀ content : String,
      extract_paragraphs content =
        (extract_paragraphs_raw content).filter (fun p => decide (100 < p.length))) ∧
    extract_paragraphs prose100 = [] ∧
    extract_paragraphs prose101 = [prose101] := by
  refine ⟨fun content => ?_, by decide, by decide⟩
  unfold extract_paragraphs extract_paragraphs_raw extract_paragraphsLines
  cases splitLines content.data with
  | nil => rfl
  | cons first rest =>
    by_cases h : stripL first = ('-' :: '-' :: '-' :: []) <;>
      simp [h, extractLoop_eq_filter, map_mk_filter]

/-- C2: a non-skippable line judged markup-only is discarded without touching
the paragraph buffer, so prose lines on both sides of it merge into one
paragraph; concretely, two prose lines separated by an overlong standalone
wiki-link line come out as one merged paragraph. -/
theorem claim_C2 :
    (∀ (l : List Char) (ls buf : List (List Char)),
      skipLineL (stripL l) = false → is_markup_onlyL (stripL l) = true →
      extractLoop (l :: ls) false buf = extractLoop ls false buf) ∧
    extract_paragraphs (proseLine1 ++ "\n" ++ longWikiLine ++ "\n" ++ proseLine2) =
      [proseLine1 ++ " " ++ proseLine2] := by
  constructor
  · intro l ls buf h1 h2
    simp [extractLoop, h1, h2]
  · decide

/-- Witness for C2 at the concrete wiki-link line. -/
theorem claim_C2_witness :
    skipLineL (stripL longWikiLine.data) = false ∧
    is_markup_onlyL (stripL longWikiLine.data) = true ∧
    extractLoop (longWikiLine.data :: []) false [] = extractLoop [] false [] :=
  ⟨by decide, by decide, claim_C2.1 longWikiLine.data [] [] (by decide) (by decide)⟩

theorem extractLoop_fm_unclosed (ls : List (List Char)) :
    ∀ buf, (∀ l ∈ ls, stripL l ≠ ('-' :: '-' :: '-' :: [])) →
      extractLoop ls true buf = finalizeL buf := by
  induction ls with
  | nil => intro buf _; rfl
  | cons l ls ih =>
    intro buf h
    have hl : stripL l ≠ ('-' :: '-' :: '-' :: []) := h l (List.mem_cons_self l ls)
    simp only [extractLoop, if_neg hl]
    exact ih buf (fun x hx => h x (List.mem_cons_of_mem l hx))

theorem extractLoop_fm_closed (fm : List (List Char)) :
    ∀ (close : List Char) (rest buf : List (List Char)),
      (∀ l ∈ fm, stripL l ≠ ('-' :: '-' :: '-' :: [])) →
      stripL close = ('-' :: '-' :: '-' :: []) →
      extractLoop (fm ++ close :: rest) true buf = extractLoop rest false buf := by
  induction fm with
  | nil => intro close rest buf _ hc; simp [extractLoop, hc]
  | cons l fm ih =>
    intro close rest buf h hc
    have hl : stripL l ≠ ('-' :: '-' :: '-' :: []) := h l (List.mem_cons_self l fm)
    simp only [List.cons_append, extractLoop, if_neg hl]
    exact ih close rest buf (fun x hx => h x (List.mem_cons_of_mem l hx)) hc

/-- C3: when line 0 trims to `---`, every line up to and including the next
line trimming to `---` is excluded (the result does not depend on the
frontmatter lines at all, headings included), and a document whose
frontmatter never closes extracts to the empty list. -/
theorem claim_C3 :
    (∀ (first close : List Char) (fm rest : List (List Char)),
      stripL first = ('-' :: '-' :: '-' :: []) →
      stripL close = ('-' :: '-' :: '-' :: []) →
      (∀ l ∈ fm, stripL l ≠ ('-' :: '-' :: '-' :: [])) →
      extract_paragraphsLines (first :: (fm ++ close :: rest)) =
        extractLoop rest false []) ∧
    (∀ (content : String) (first : List Char) (rest : List (List Char)),
      splitLines content.data = first :: rest →
      stripL first = ('-' :: '-' :: '-' :: []) →
      (∀ l ∈ rest, stripL l ≠ ('-' :: '-' :: '-' :: [])) →
      extract_paragraphs content = []) := by
  constructor
  · intro first close fm rest h1 hc hfm
    simp only [extract_paragraphsLines, if_pos h1]
    exact extractLoop_fm_closed fm close rest [] hfm hc
  · intro content first rest hsplit h1 hrest
    unfold extract_paragraphs
    rw [hsplit]
    simp only [extract_paragraphsLines, if_pos h1]
    rw [extractLoop_fm_unclosed rest [] hrest]
    rfl

/-- Witness for C3: a closed and an unclosed concrete frontmatter block. -/
theorem claim_C3_witness :
    extract_paragraphsLines
        ("---".data :: (["title: x".data, "# Hidden".data] ++ "---".data :: ["hello".data])) =
      extractLoop ["hello".data] false [] ∧
    extract_paragraphs "---\nnever closed\n# Hidden\nsome text" = [] :=
  ⟨claim_C3.1 "---".data "---".data ["title: x".data, "# Hidden".data] ["hello".data]
      (by decide) (by decide) (by decide),
    claim_C3.2 "---\nnever closed\n# Hidden\nsome text" "---".data
      ["never closed".data, "# Hidden".data, "some text".data]
      (by decide) (by decide) (by decide)⟩

/-- C4: a line consisting solely of `![[embed.png]]` satisfies the skip
conditions; every skippable line finalizes the in-progress buffer (subject
to the length gate) with an emptied buffer afterwards; and the output never
depends on the skippable line's text. -/
theorem claim_C4 :
    skipLineL (stripL "![[embed.png]]".data) = true ∧
    (∀ (l : List Char) (ls buf : List (List Char)),
      skipLineL (stripL l) = true →
      extractLoop (l :: ls) false buf = finalizeL buf ++ extractLoop ls false []) ∧
    (∀ (l1 l2 : List Char) (ls buf : List (List Char)),
      skipLineL (stripL l1) = true → skipLineL (stripL l2) = true →
      extractLoop (l1 :: ls) false buf = extractLoop (l2 :: ls) false buf) := by
  refine ⟨by decide, ?_, ?_⟩
  · intro l ls buf h
    simp [extractLoop, h]
  · intro l1 l2 ls buf h1 h2
    simp [extractLoop, h1, h2]

/-- Witness for C4 at `![[embed.png]]` and a heading line. -/
theorem claim_C4_witness :
    extractLoop ("![[embed.png]]".data :: []) false [proseLine1.data] =
      finalizeL [proseLine1.data] ++ extractLoop [] false [] ∧
    extractLoop ("![[embed.png]]".data :: []) false [] =
      extractLoop ("# Heading".data :: []) false [] :=
  ⟨claim_C4.2.1 "![[embed.png]]".data [] [proseLine1.data] (by decide),
    claim_C4.2.2 "![[embed.png]]".data "# Heading".data [] [] (by decide) (by decide)⟩

/-- C10: the four analysed methods read no instance state: any two class
instances produce identical results on equal inputs (and, being functions,
equal inputs always give equal outputs). -/
theorem claim_C10 :
    ∀ (s1 s2 : ObsidianQuoteDisplay) (content line text : String),
      s1.extract_paragraphs content = s2.extract_paragraphs content ∧
      s1.extract_book_title content = s2.extract_book_title content ∧
      s1.is_markup_only line = s2.is_markup_only line ∧
      s1.clean_markdown text = s2.clean_markdown text :=
  fun _ _ _ _ _ => ⟨rfl, rfl, rfl, rfl⟩

/-- C5 fails on the code: `extract_book_title` scans every line, frontmatter
included, so a document whose only `# `-heading lies inside frontmatter
returns that heading, not the sentinel. -/
theorem claim_C5_counterexample :
    extract_book_title "---\n# Inside\n---\nno heading" = "Inside" ∧
    ("Inside" : String) ≠ "Unknown Book" := by
  constructor
  · decide
  · decide

theorem extract_book_titleLines_eq (lines : List (List Char)) :
    extract_book_titleLines lines =
      (match (lines.map stripL).find? (fun t => ('#' :: ' ' :: []).isPrefixOf t) with
        | some t => String.mk (stripL (t.drop 2))
        | none => "Unknown Book") := by
  induction lines with
  | nil => rfl
  | cons l ls ih =>
    by_cases h : (('#' :: ' ' :: []).isPrefixOf (stripL l)) = true
    · simp [extract_book_titleLines, h, List.find?]
    · simp only [Bool.not_eq_true] at h
      simp [extract_book_titleLines, h, List.find?, ih]

/-- C5 amended: `extract_book_title` returns the trimmed text after `# ` of
the first line anywhere in the document (frontmatter included) whose
stripped form starts with `# `, and the sentinel `"Unknown Book"` exactly
when no such line exists anywhere. -/
theorem claim_C5 :
    ∀ content : String,
      extract_book_title content =
        (match ((splitLines content.data).map stripL).find?
            (fun t => ('#' :: ' ' :: []).isPrefixOf t) with
          | some t => String.mk (stripL (t.drop 2))
          | none => "Unknown Book") :=
  fun content => extract_book_titleLines_eq (splitLines content.data)

/-- C8 fails on the code: `urllib.parse.quote`'s default safe set keeps `/`
literal, so the path is not component-encoded; `/tmp/a b.md` comes out with
its slashes intact. -/
theorem claim_C8_counterexample :
    get_obsidian_uri "/tmp/a b.md" = "obsidian://open?path=/tmp/a%20b.md" ∧
    get_obsidian_uri "/tmp/a b.md" ≠
      "obsidian://open?path=" ++ quoteComponent "/tmp/a b.md" := by
  constructor
  · decide
  · decide

theorem flatMap_quote_no_slash (d : List Char) (h : ('/' : Char) ∉ d) :
    d.flatMap (quoteChar (fun c => alwaysSafe c || c = '/')) =
      d.flatMap (quoteChar alwaysSafe) := by
  induction d with
  | nil => rfl
  | cons c d ih =>
    have hc : c ≠ '/' := fun hceq => h (hceq ▸ List.mem_cons_self c d)
    have hd : ('/' : Char) ∉ d := fun hm => h (List.mem_cons_of_mem c hm)
    simp [quoteChar, hc, ih hd]

/-- C8 amended: the URI is the scheme prefix plus the path percent-encoded by
`urllib.parse.quote`'s default, which leaves `/` literal; on paths without a
slash this coincides with standard URI component encoding. -/
theorem claim_C8 :
    ∀ path : String,
      get_obsidian_uri path = "obsidian://open?path=" ++ pyQuote path ∧
      (('/' : Char) ∉ path.data →
        get_obsidian_uri path = "obsidian://open?path=" ++ quoteComponent path) := by
  intro path
  refine ⟨rfl, fun h => ?_⟩
  unfold get_obsidian_uri pyQuote quoteComponent
  rw [flatMap_quote_no_slash path.data h]

/-- Witness for C8 on a slash-free path. -/
theorem claim_C8_witness :
    (('/' : Char) ∉ ("a b.md" : String).data) ∧
    get_obsidian_uri "a b.md" = "obsidian://open?path=" ++ quoteComponent "a b.md" :=
  ⟨by decide, (claim_C8 "a b.md").2 (by decide)⟩

/-! Output-invariant lemmas for C9. -/

theorem head?_dropWhile_not (p : Char → Bool) (l : List Char) :
    ∀ c, ((l.dropWhile p).head? = some c) → p c = false := by
  induction l with
  | nil => intro c h; simp [List.dropWhile] at h
  | cons a l ih =>
    intro c h
    by_cases hp : p a = true
    · rw [List.dropWhile_cons, if_pos hp] at h
      exact ih c h
    · rw [List.dropWhile_cons, if_neg hp] at h
      simp only [List.head?_cons, Option.some.injEq] at h
      subst h
      simpa using hp

theorem stripL_prefix (l : List Char) :
    stripL l <+: l.dropWhile pyWhitespace := by
  refine ⟨((l.dropWhile pyWhitespace).reverse.takeWhile pyWhitespace).reverse, ?_⟩
  unfold stripL
  rw [← List.reverse_append, List.takeWhile_append_dropWhile, List.reverse_reverse]

theorem stripL_head_ok (l : List Char) :
    ∀ c, (stripL l).head? = some c → pyWhitespace c = false := by
  intro c h
  obtain ⟨t, ht⟩ := stripL_prefix l
  have hh : (l.dropWhile pyWhitespace).head? = some c := by
    rw [← ht]
    cases hs : stripL l with
    | nil => rw [hs] at h; simp at h
    | cons a s =>
      rw [hs] at h
      simp only [List.head?_cons, Option.some.injEq] at h
      subst h
      rfl
  exact head?_dropWhile_not pyWhitespace l c hh

theorem stripL_getLast_ok (l : List Char) :
    ∀ c, (stripL l).getLast? = some c → pyWhitespace c = false := by
  intro c h
  unfold stripL at h
  rw [List.getLast?_reverse] at h
  exact head?_dropWhile_not pyWhitespace _ c h

theorem mem_stripL (l : List Char) (c : Char) (h : c ∈ stripL l) : c ∈ l := by
  unfold stripL at h
  rw [List.mem_reverse] at h
  have h2 : c ∈ (l.dropWhile pyWhitespace).reverse :=
    (List.dropWhile_sublist pyWhitespace).mem h
  rw [List.mem_reverse] at h2
  exact (List.dropWhile_sublist pyWhitespace).mem h2

theorem mem_joinSpace (bs : List (List Char)) (c : Char) :
    c ∈ joinSpace bs → c = ' ' ∨ ∃ b ∈ bs, c ∈ b := by
  induction bs with
  | nil => intro h; simp [joinSpace] at h
  | cons x xs ih =>
    intro h
    cases xs with
    | nil =>
      simp only [joinSpace] at h
      exact Or.inr ⟨x, List.mem_cons_self x [], h⟩
    | cons y ys =>
      simp only [joinSpace, List.mem_append, List.mem_cons] at h
      rcases h with hx | hsp | hrest
      · exact Or.inr ⟨x, List.mem_cons_self x _, hx⟩
      · exact Or.inl hsp
      · rcases ih hrest with hc | ⟨b, hb, hcb⟩
        · exact Or.inl hc
        · exact Or.inr ⟨b, List.mem_cons_of_mem x hb, hcb⟩

theorem splitLinesAux_no_nl (cs : List Char) :
    ∀ cur, (∀ c ∈ cur, c ≠ '\n') →
      ∀ l ∈ splitLinesAux cs cur, ∀ c ∈ l, c ≠ '\n' := by
  induction cs with
  | nil =>
    intro cur hcur l hl c hc
    simp only [splitLinesAux, List.mem_singleton] at hl
    subst hl
    exact hcur c (List.mem_reverse.mp hc)
  | cons a cs ih =>
    intro cur hcur l hl c hc
    by_cases ha : a = '\n'
    · rw [splitLinesAux, if_pos ha] at hl
      rcases List.mem_cons.mp hl with rfl | hl2
      · exact hcur c (List.mem_reverse.mp hc)
      · exact ih [] (by simp) l hl2 c hc
    · rw [splitLinesAux, if_neg ha] at hl
      refine ih (a :: cur) ?_ l hl c hc
      intro d hd
      rcases List.mem_cons.mp hd with rfl | hd2
      · exact ha
      · exact hcur d hd2

theorem splitLines_no_nl (d : List Char) :
    ∀ l ∈ splitLines d, ('\n' : Char) ∉ l := by
  intro l hl hc
  exact splitLinesAux_no_nl d [] (by simp) l hl '\n' hc rfl

theorem finalizeL_mem_props (buf : List (List Char))
    (hbuf : ∀ b ∈ buf, ('\n' : Char) ∉ b) :
    ∀ p ∈ finalizeL buf,
      100 < p.length ∧ (p.head?.all fun c => !pyWhitespace c) = true ∧
      (p.getLast?.all fun c => !pyWhitespace c) = true ∧ ('\n' : Char) ∉ p := by
  intro p hp
  unfold finalizeL at hp
  by_cases h0 : buf.isEmpty
  · simp [h0] at hp
  · rw [if_neg h0] at hp
    by_cases hgate : 100 < (stripL (joinSpace buf)).length
    · rw [if_pos hgate] at hp
      simp only [List.mem_singleton] at hp
      subst hp
      refine ⟨hgate, ?_, ?_, ?_⟩
      · cases hh : (stripL (joinSpace buf)).head? with
        | none => rfl
        | some c => simp [Option.all, stripL_head_ok (joinSpace buf) c hh]
      · cases hh : (stripL (joinSpace buf)).getLast? with
        | none => rfl
        | some c => simp [Option.all, stripL_getLast_ok (joinSpace buf) c hh]
      · intro hmem
        have hj := mem_stripL (joinSpace buf) '\n' hmem
        rcases mem_joinSpace buf '\n' hj with hsp | ⟨b, hb, hcb⟩
        · exact absurd hsp (by decide)
        · exact hbuf b hb hcb
    · rw [if_neg hgate] at hp
      simp at hp

theorem extractLoop_mem_props (ls : List (List Char)) :
    ∀ (fm : Bool) (buf : List (List Char)),
      (∀ l ∈ ls, ('\n' : Char) ∉ l) → (∀ b ∈ buf, ('\n' : Char) ∉ b) →
      ∀ p ∈ extractLoop ls fm buf,
        100 < p.length ∧ (p.head?.all fun c => !pyWhitespace c) = true ∧
        (p.getLast?.all fun c => !pyWhitespace c) = true ∧ ('\n' : Char) ∉ p := by
  induction ls with
  | nil =>
    intro fm buf _ hbuf p hp
    cases fm <;> exact finalizeL_mem_props buf hbuf p hp
  | cons l ls ih =>
    intro fm buf hls hbuf p hp
    have hl : ('\n' : Char) ∉ l := hls l (List.mem_cons_self l ls)
    have hls2 : ∀ x ∈ ls, ('\n' : Char) ∉ x :=
      fun x hx => hls x (List.mem_cons_of_mem l hx)
    cases fm with
    | true =>
      by_cases hd : stripL l = ('-' :: '-' :: '-' :: [])
      · rw [extractLoop, if_pos hd] at hp
        exact ih false buf hls2 hbuf p hp
      · rw [extractLoop, if_neg hd] at hp
        exact ih true buf hls2 hbuf p hp
    | false =>
      by_cases hskip : skipLineL (stripL l) = true
      · rw [extractLoop, if_pos hskip] at hp
        rcases List.mem_append.mp hp with hfin | hrec
        · exact finalizeL_mem_props buf hbuf p hfin
        · exact ih false [] hls2 (by simp) p hrec
      · rw [extractLoop, if_neg hskip] at hp
        by_cases hadd : (!(stripL l).isEmpty && !is_markup_onlyL (stripL l)) = true
        · rw [if_pos hadd] at hp
          refine ih false (buf ++ [stripL l]) hls2 ?_ p hp
          intro b hb
          rcases List.mem_append.mp hb with hb1 | hb2
          · exact hbuf b hb1
          · rw [List.mem_singleton] at hb2
            subst hb2
            exact fun hc => hl (mem_stripL l '\n' hc)
        · rw [if_neg hadd] at hp
          exact ih false buf hls2 hbuf p hp

theorem extract_paragraphs_mem (content : String) (p : String)
    (hp : p ∈ extract_paragraphs content) :
    100 < p.length ∧ (p.data.head?.all fun c => !pyWhitespace c) = true ∧
    (p.data.getLast?.all fun c => !pyWhitespace c) = true ∧ ('\n' : Char) ∉ p.data := by
  unfold extract_paragraphs at hp
  obtain ⟨d, hd, rfl⟩ := List.mem_map.mp hp
  have hlines := splitLines_no_nl content.data
  cases hsp : splitLines content.data with
  | nil => rw [hsp] at hd; simp [extract_paragraphsLines] at hd
  | cons first rest =>
    rw [hsp] at hd hlines
    simp only [extract_paragraphsLines] at hd
    have hrest : ∀ l ∈ rest, ('\n' : Char) ∉ l :=
      fun l hl => hlines l (List.mem_cons_of_mem first hl)
    by_cases h1 : stripL first = ('-' :: '-' :: '-' :: [])
    · rw [if_pos h1] at hd
      exact extractLoop_mem_props rest true [] hrest (by simp) d hd
    · rw [if_neg h1] at hd
      exact extractLoop_mem_props (first :: rest) false [] hlines (by simp) d hd

/-- C9: every string returned by `extract_paragraphs` is longer than 100
characters, starts and ends with a non-whitespace character, and contains no
newline. -/
theorem claim_C9 :
    ∀ (content : String) (p : String), p ∈ extract_paragraphs content →
      100 < p.length ∧ (p.data.head?.all fun c => !pyWhitespace c) = true ∧
      (p.data.getLast?.all fun c => !pyWhitespace c) = true ∧ ('\n' : Char) ∉ p.data :=
  fun content p hp => extract_paragraphs_mem content p hp

/-- Witness for C9 at a concrete document. -/
theorem claim_C9_witness :
    100 < prose101.length ∧
    (prose101.data.head?.all fun c => !pyWhitespace c) = true ∧
    (prose101.data.getLast?.all fun c => !pyWhitespace c) = true ∧
    ('\n' : Char) ∉ prose101.data :=
  claim_C9 prose101 prose101 (by decide)

theorem getD_mod_mem {α : Type} (l : List α) (d : α) (i : Nat) (h : l ≠ []) :
    l.getD (i % l.length) d ∈ l := by
  have hlt : i % l.length < l.length := Nat.mod_lt i (List.length_pos.mpr h)
  rw [List.getD_eq_getElem?_getD, List.getElem?_eq_getElem hlt]
  exact List.getElem_mem hlt

/-- C7: the selector distinguishes the empty-file-set outcome (returned
before any read), the exhausted-attempts outcome, and treats a per-file read
error as one consumed attempt that never escapes the loop. -/
theorem claim_C7 :
    (∀ picks : List (Nat × Nat), get_random_quote [] picks = QuoteResult.noFiles) ∧
    (∀ (files : List MDFile) (picks : List (Nat × Nat)),
      files ≠ [] →
      (∀ f ∈ files, ∀ c, f.read = some c → extract_paragraphs c = []) →
      get_random_quote files picks = QuoteResult.noSuitable) ∧
    (∀ (files : List MDFile) (fi pi : Nat) (picks : List (Nat × Nat)),
      (listPick files fi).read = none →
      quoteLoop files ((fi, pi) :: picks) = quoteLoop files picks) := by
  refine ⟨fun picks => rfl, ?_, ?_⟩
  · intro files picks hne hempty
    cases files with
    | nil => exact absurd rfl hne
    | cons f fs =>
      unfold get_random_quote
      simp only [List.isEmpty_cons, Bool.false_eq_true, if_false]
      induction picks with
      | nil => rfl
      | cons pk rest ih =>
        obtain ⟨fi, pi⟩ := pk
        cases hr : (listPick (f :: fs) fi).read with
        | none =>
          simp only [quoteLoop, hr]
          exact ih
        | some c =>
          have hmem : listPick (f :: fs) fi ∈ f :: fs :=
            getD_mod_mem (f :: fs) (MDFile.mk "" "" none) fi (by simp)
          have hc : extract_paragraphs c = [] := hempty _ hmem c hr
          simp only [quoteLoop, hr, hc, List.isEmpty_nil, if_true]
          exact ih
  · intro files fi pi picks h
    simp only [quoteLoop, h]

/-- Witness for C7: empty file set, a single always-erroring file, and the
error-consumes-an-attempt step at that file. -/
theorem claim_C7_witness :
    get_random_quote [] [(0, 0)] = QuoteResult.noFiles ∧
    get_random_quote [badFile] [(0, 0)] = QuoteResult.noSuitable ∧
    quoteLoop [badFile] ((0, 0) :: []) = quoteLoop [badFile] [] :=
  ⟨claim_C7.1 [(0, 0)],
    claim_C7.2.1 [badFile] [(0, 0)] (List.cons_ne_nil badFile [])
      (by
        intro f hf c hc
        rw [List.mem_singleton] at hf
        subst hf
        simp [badFile] at hc),
    claim_C7.2.2 [badFile] 0 0 [] (by decide)⟩

/-- C6: `clean_markdown` unwraps bold, italic and wiki-link markers while
keeping the inner text, and in the selector it is applied only to the
paragraph chosen after extraction: every successful quote is the cleanup of
a paragraph that already passed the >100-character gate uncleaned. -/
theorem claim_C6 :
    clean_markdown "**bold** and _italic_ and [[Link]]" = "bold and italic and Link" ∧
    (∀ (files : List MDFile) (picks : List (Nat × Nat)) (q b n u : String),
      get_random_quote files picks = QuoteResult.success q b n u →
      ∃ f ∈ files, ∃ content, f.read = some content ∧
        ∃ p ∈ extract_paragraphs content,
          q = clean_markdown p ∧ 100 < p.length) := by
  constructor
  · decide
  · intro files picks q b n u hsucc
    cases files with
    | nil => simp [get_random_quote] at hsucc
    | cons f fs =>
      unfold get_random_quote at hsucc
      simp only [List.isEmpty_cons, Bool.false_eq_true, if_false] at hsucc
      revert hsucc
      induction picks with
      | nil =>
        intro hsucc
        simp [quoteLoop] at hsucc
      | cons pk rest ih =>
        intro hsucc
        obtain ⟨fi, pi⟩ := pk
        cases hr : (listPick (f :: fs) fi).read with
        | none =>
          simp only [quoteLoop, hr] at hsucc
          exact ih hsucc
        | some content =>
          by_cases he : (extract_paragraphs content).isEmpty = true
          · simp only [quoteLoop, hr, he, if_true] at hsucc
            exact ih hsucc
          · simp only [quoteLoop, hr, if_neg he,
              QuoteResult.success.injEq] at hsucc
            obtain ⟨hq, _, _, _⟩ := hsucc
            have hne : extract_paragraphs content ≠ [] := by
              simpa [List.isEmpty_iff] using he
            have hpmem :
                (extract_paragraphs content).getD
                  (pi % (extract_paragraphs content).length) "" ∈
                  extract_paragraphs content :=
              getD_mod_mem (extract_paragraphs content) "" pi hne
            exact ⟨listPick (f :: fs) fi,
              getD_mod_mem (f :: fs) (MDFile.mk "" "" none) fi (by simp),
              content, hr, _, hpmem, hq.symm,
              (extract_paragraphs_mem content _ hpmem).1⟩

/-- Witness for C6: a one-file library whose single long paragraph is
returned by the selector. -/
theorem claim_C6_witness :
    ∃ f ∈ [goodFile], ∃ content, f.read = some content ∧
      ∃ p ∈ extract_paragraphs content,
        prose101 = clean_markdown p ∧ 100 < p.length :=
  claim_C6.2 [goodFile] [(0, 0)] prose101 "Unknown Book" "b.md"
    "obsidian://open?path=/v/b.md" (by decide)

end ObsidianQuotes
